/-
Verification of the assignment-tracker domain model.

Two iterations of the core library live in the sources and are embedded
here in two namespaces:

* `TrackerCore` embeds `src/tracker/core/src/assignment/mark.rs`,
  `assignment/status.rs`, `assignment.rs` and `tracker.rs` (the generic
  `Tracker` with a flat assignment list and an id-to-code index map).
* `ClassCore` embeds `src/tracker/core/src/class.rs` (the earlier
  `Class` that owns a `HashMap` of assignments and a running
  `total_value`).

Rust `f64` values are embedded as exact rationals (`Rat`); only addition
and order comparisons occur in the embedded code.  `u32`/`u64` are
embedded as `Nat` (no arithmetic is performed on them, only equality).
`HashMap` is embedded as an association list with unique keys: `insert`
overwrites the entry for the key, `remove` deletes it.  A Rust method on
`&mut self` returning `Result<T, E>` is embedded as a function returning
`Except E T × State`, so that the untouched-on-error behaviour of the
source (early `return`/`bail!` before any mutation) is visible in the
embedding.
-/
import Mathlib

namespace TrackerCore

/-- Embeds `Status` from `src/tracker/core/src/assignment/status.rs`. -/
inductive Status where
  | incomplete
  | complete
  | marked
deriving DecidableEq, Repr

/-- Embeds `impl Default for Status`: the default status is `Incomplete`. -/
def Status.default : Status := Status.incomplete

/-- Embeds `Mark` from `src/tracker/core/src/assignment/mark.rs`:
percent, letter grade, or x-out-of-y. -/
inductive Mark where
  | Percent (pct : Rat)
  | Letter (c : Char)
  | OutOf (a b : Nat)
deriving DecidableEq, Repr

/-- Embeds `InvalidMarkError` used by `mark.rs` (variants named in its
`use` declaration; the enum definition itself is not in the sources but
the variant names and payloads are fixed by the call sites). -/
inductive InvalidMarkError where
  | PercentOutOfRange (pct : Rat)
  | LetterOutOfRange (c : Char)
  | OutOfTupleEquality (a b : Nat)
deriving DecidableEq, Repr

/-- Embeds `Mark::check_valid` from `mark.rs`: match with guards,
catch-all returns `Ok(())`. -/
def Mark.check_valid : Mark → Except InvalidMarkError Unit
  | .Percent pct =>
      if ¬(0 ≤ pct ∧ pct ≤ 100) then .error (.PercentOutOfRange pct) else .ok ()
  | .Letter c =>
      if ¬('A' ≤ c ∧ c ≤ 'Z') then .error (.LetterOutOfRange c) else .ok ()
  | .OutOf a b =>
      if a > b then .error (.OutOfTupleEquality a b) else .ok ()

/-- Embeds `Mark::percent` from `mark.rs` (the `warn!` branch has no
effect on the returned value). -/
def Mark.percent (pct : Rat) : Except InvalidMarkError Mark :=
  if ¬(0 ≤ pct ∧ pct ≤ 100) then .error (.PercentOutOfRange pct)
  else .ok (.Percent pct)

/-- Embeds `Mark::letter` from `mark.rs`. -/
def Mark.letter (c : Char) : Except InvalidMarkError Mark :=
  if ¬('A' ≤ c ∧ c ≤ 'Z') then .error (.LetterOutOfRange c)
  else .ok (.Letter c)

/-- Embeds `Mark::out_of` from `mark.rs`. -/
def Mark.out_of (a b : Nat) : Except InvalidMarkError Mark :=
  if a > b then .error (.OutOfTupleEquality a b)
  else .ok (.OutOf a b)

/-- Embeds `StatusError` from `src/tracker/core/src/errors.rs`. -/
inductive StatusError where
  | NotMarked
  | Marked
deriving DecidableEq, Repr

/-- Embeds `AssignmentError` from `src/tracker/core/src/errors.rs`. -/
inductive AssignmentError where
  | Value (v : Rat)
  | Mark (e : InvalidMarkError)
  | Status (e : StatusError)
deriving DecidableEq, Repr

/-- Embeds the `Assignment` struct from
`src/tracker/core/src/assignment.rs`.  `NaiveDateTime` is embedded as an
opaque timestamp `Int` (the code never computes with it). -/
structure Assignment where
  id : Nat
  name : String
  value : Option Rat
  mark : Option Mark
  due_date : Option Int
  status : Status
deriving DecidableEq, Repr

/-- Embeds `Assignment::new`: infallible, all optional fields `None`,
status `Status::default()`. -/
def Assignment.new (id : Nat) (name : String) : Assignment :=
  { id := id, name := name, value := none, mark := none,
    due_date := none, status := Status.default }

/-- Embeds `Assignment::set_value`: rejects a value outside
`0.0..=100.0`, otherwise stores it. -/
def Assignment.set_value (a : Assignment) (value : Rat) :
    Except AssignmentError Unit × Assignment :=
  if ¬(0 ≤ value ∧ value ≤ 100) then (.error (.Value value), a)
  else (.ok (), { a with value := some value })

/-- Embeds `Assignment::remove_value`. -/
def Assignment.remove_value (a : Assignment) : Assignment :=
  { a with value := none }

/-- Embeds `Assignment::set_status`: errors when the requested status
disagrees with the presence of a mark. -/
def Assignment.set_status (a : Assignment) (status : Status) :
    Except AssignmentError Unit × Assignment :=
  match a.mark with
  | some _ =>
      if status ≠ Status.marked then (.error (.Status .NotMarked), a)
      else (.ok (), { a with status := status })
  | none =>
      if status = Status.marked then (.error (.Status .Marked), a)
      else (.ok (), { a with status := status })

/-- Embeds `Assignment::set_mark`: validates the mark, stores it, then
delegates to `set_status(Marked)` with `?` propagation (the mark field
is already written when `set_status` runs, exactly as in the source). -/
def Assignment.set_mark (a : Assignment) (mark : Mark) :
    Except AssignmentError Unit × Assignment :=
  match mark.check_valid with
  | .error e => (.error (.Mark e), a)
  | .ok _ =>
      let a1 := { a with mark := some mark }
      match a1.set_status Status.marked with
      | (.error e, a2) => (.error e, a2)
      | (.ok _, a2) => (.ok (), a2)

/-- Embeds `Assignment::remove_mark`: clears the mark then calls
`set_status(Incomplete).expect(..)`; the expect branch is unreachable
because the mark has just been cleared. -/
def Assignment.remove_mark (a : Assignment) : Assignment :=
  ({ a with mark := none }.set_status Status.incomplete).2

/-- Embeds `Assignment::set_due_date`. -/
def Assignment.set_due_date (a : Assignment) (d : Int) : Assignment :=
  { a with due_date := some d }

/-- Embeds `Assignment::remove_due_date`. -/
def Assignment.remove_due_date (a : Assignment) : Assignment :=
  { a with due_date := none }

/-- Embeds the builder `Assignment::with_value` (consumes `self`, the
error drops the partially built value). -/
def Assignment.with_value (a : Assignment) (value : Rat) :
    Except AssignmentError Assignment :=
  match a.set_value value with
  | (.error e, _) => .error e
  | (.ok _, a1) => .ok a1

/-- Embeds the builder `Assignment::with_mark`: `set_mark` then a second
`set_status(Marked)`, with `?` propagation. -/
def Assignment.with_mark (a : Assignment) (mark : Mark) :
    Except AssignmentError Assignment :=
  match a.set_mark mark with
  | (.error e, _) => .error e
  | (.ok _, a1) =>
      match a1.set_status Status.marked with
      | (.error e, _) => .error e
      | (.ok _, a2) => .ok a2

/-- Embeds the builder `Assignment::with_due_date` (infallible). -/
def Assignment.with_due_date (a : Assignment) (d : Int) : Assignment :=
  { a with due_date := some d }

/-- Embeds the builder `Assignment::with_status`. -/
def Assignment.with_status (a : Assignment) (status : Status) :
    Except AssignmentError Assignment :=
  match a.set_status status with
  | (.error e, _) => .error e
  | (.ok _, a1) => .ok a1

/-- One mutation of an assignment through its public interface: the
fallible in-place setters (post state of a failed call equals the pre
state), the infallible setters and clearers, and the consuming `with_*`
builders (which only produce a state on success). -/
inductive AStep : Assignment → Assignment → Prop where
  | set_value (a : Assignment) (v : Rat) : AStep a (a.set_value v).2
  | remove_value (a : Assignment) : AStep a a.remove_value
  | set_mark (a : Assignment) (m : Mark) : AStep a (a.set_mark m).2
  | remove_mark (a : Assignment) : AStep a a.remove_mark
  | set_due_date (a : Assignment) (d : Int) : AStep a (a.set_due_date d)
  | remove_due_date (a : Assignment) : AStep a a.remove_due_date
  | set_status (a : Assignment) (s : Status) : AStep a (a.set_status s).2
  | with_value {a a1 : Assignment} (v : Rat) :
      a.with_value v = .ok a1 → AStep a a1
  | with_mark {a a1 : Assignment} (m : Mark) :
      a.with_mark m = .ok a1 → AStep a a1
  | with_due_date (a : Assignment) (d : Int) : AStep a (a.with_due_date d)
  | with_status {a a1 : Assignment} (s : Status) :
      a.with_status s = .ok a1 → AStep a a1

/-- Assignment states reachable from a start state. -/
inductive AReach (a0 : Assignment) : Assignment → Prop where
  | refl : AReach a0 a0
  | step {a a1 : Assignment} : AReach a0 a → AStep a a1 → AReach a0 a1

/-- The mark and status fields agree: status is `Marked` exactly when a
mark is present. -/
def MarkStatusInv (a : Assignment) : Prop :=
  a.status = Status.marked ↔ a.mark ≠ none

/-- Embeds `InvalidTrackerError`, the error enum used by
`src/tracker/core/src/tracker.rs` (variant names and payloads fixed by
the `bail!` call sites; the enum definition file is not in the sources).
The extra `ClassTotalValue` variant carries the class-level weight error
propagated by `?` out of `Classlike::add_total_value`, matching
`ClassError::TotalValue` in `errors.rs`. -/
inductive InvalidTrackerError where
  | ClassCodeTaken (tracker code : String)
  | ClassCodeNone (tracker code : String)
  | AssignmentIdTaken (tracker : String) (id : Nat)
  | AssignmentIdNone (tracker : String) (id : Nat)
  | AssignmentNameNotUnique (tracker name code : String)
  | ClassTotalValue (v : Rat)
deriving DecidableEq, Repr

/-- Modelled from the spec: the `Classlike` implementation used by the
generic `Tracker` (the `Code`/`Class` types of this iteration, with
their `code()` accessor and running `total_value`) is not in the
sources.  Per the spec a class is identified by its code and tracks the
running sum of its assignment weights. -/
structure TClass where
  code : String
  total_value : Rat
deriving DecidableEq, Repr

/-- Modelled from the spec: `Classlike::add_total_value` is missing from
the sources.  Per the spec's weight-sum rule the updated total must stay
at most 100, otherwise the call fails and leaves `total_value`
unchanged. -/
def TClass.add_total_value (c : TClass) (v : Rat) :
    Except InvalidTrackerError Unit × TClass :=
  if 100 < c.total_value + v then (.error (.ClassTotalValue (c.total_value + v)), c)
  else (.ok (), { c with total_value := c.total_value + v })

/-- Association-list embedding of `HashMap<u32, String>` lookup
(`map.get(&id)`). -/
def mapGet : List (Nat × String) → Nat → Option String
  | [], _ => none
  | p :: rest, id => if p.1 = id then some p.2 else mapGet rest id

/-- Association-list embedding of `HashMap::remove(&id)` (the removed
value is recoverable through `mapGet` first, which no tracker call site
needs). -/
def mapEraseKey (m : List (Nat × String)) (id : Nat) : List (Nat × String) :=
  m.filter (fun p => decide (p.1 ≠ id))

/-- Association-list embedding of `HashMap::insert(id, v)`: overwrites
any entry for the key. -/
def mapInsert (m : List (Nat × String)) (id : Nat) (v : String) :
    List (Nat × String) :=
  (id, v) :: mapEraseKey m id

/-- Embeds the loop in `Tracker::remove_class` that calls
`map.remove(id)` for each collected id. -/
def mapEraseKeys (m : List (Nat × String)) (ids : List Nat) :
    List (Nat × String) :=
  ids.foldl (fun acc id => mapEraseKey acc id) m

/-- First class with the given code (`get_class` / `get_class_mut`
lookup, and the element found by `position` in `remove_class`). -/
def findClass : List TClass → String → Option TClass
  | [], _ => none
  | c :: rest, code => if c.code = code then some c else findClass rest code

/-- Writes back the class mutated through `get_class_mut`: replaces the
first class with the given code. -/
def setFirstClass : List TClass → String → TClass → List TClass
  | [], _, _ => []
  | c :: rest, code, c1 =>
      if c.code = code then c1 :: rest else c :: setFirstClass rest code c1

/-- Embeds `self.classes.remove(index)` where `index` is the position of
the first class with the given code. -/
def eraseFirstClass : List TClass → String → List TClass
  | [], _ => []
  | c :: rest, code => if c.code = code then rest else c :: eraseFirstClass rest code

/-- First assignment with the given id (`get_assignment` lookup, and the
element found by `position` in `remove_assignment`). -/
def findAssign : List Assignment → Nat → Option Assignment
  | [], _ => none
  | a :: rest, id => if a.id = id then some a else findAssign rest id

/-- Embeds `self.assignments.remove(index)` where `index` is the
position of the first assignment with the given id. -/
def eraseFirstAssign : List Assignment → Nat → List Assignment
  | [], _ => []
  | a :: rest, id => if a.id = id then rest else a :: eraseFirstAssign rest id

/-- Embeds the `Tracker` struct from `src/tracker/core/src/tracker.rs`:
a name, the owned classes, the flat assignment list, and the
id-to-class-code index map. -/
structure Tracker where
  name : String
  classes : List TClass
  assignments : List Assignment
  map : List (Nat × String)
deriving DecidableEq, Repr

/-- Embeds `Trackerlike::new` for `Tracker`. -/
def Tracker.new (name : String) : Tracker :=
  { name := name, classes := [], assignments := [], map := [] }

/-- Embeds `Tracker::add_class`: bails with `ClassCodeTaken` when a
class with the same code exists, otherwise pushes the class. -/
def Tracker.add_class (t : Tracker) (c : TClass) :
    Except InvalidTrackerError Unit × Tracker :=
  if t.classes.any (fun c0 => c0.code = c.code) then
    (.error (.ClassCodeTaken t.name c.code), t)
  else
    (.ok (), { t with classes := t.classes ++ [c] })

/-- The ids collected by `Tracker::remove_class`: keys of all map
entries whose value is the removed code. -/
def idsWithCode (m : List (Nat × String)) (code : String) : List Nat :=
  (m.filter (fun p => p.2 = code)).map (fun p => p.1)

/-- Embeds `Tracker::remove_class`.  Note the source bails with
`ClassCodeTaken` (not `ClassCodeNone`) when no class has the code, and
removes the map entries of the class but leaves its assignments in the
flat assignment list. -/
def Tracker.remove_class (t : Tracker) (code : String) :
    Except InvalidTrackerError TClass × Tracker :=
  match findClass t.classes code with
  | none => (.error (.ClassCodeTaken t.name code), t)
  | some c =>
      (.ok c,
        { t with
          map := mapEraseKeys t.map (idsWithCode t.map code)
          classes := eraseFirstClass t.classes code })

/-- Embeds the name-uniqueness test in `Tracker::add_assignment`: some
existing assignment with the same name is mapped to this class code. -/
def nameTakenInClass (t : Tracker) (code : String) (name : String) : Bool :=
  (t.assignments.filter (fun a => a.name = name)).any
    (fun a => match mapGet t.map a.id with
      | some s => s = code
      | none => false)

/-- Embeds `Tracker::add_assignment`: global id check, then per-class
name check via the map, then class lookup, then the class-level
`add_total_value` weight check; only on success are the map entry and
the assignment inserted. -/
def Tracker.add_assignment (t : Tracker) (code : String) (assign : Assignment) :
    Except InvalidTrackerError Unit × Tracker :=
  if t.assignments.any (fun a => a.id = assign.id) then
    (.error (.AssignmentIdTaken t.name assign.id), t)
  else if nameTakenInClass t code assign.name then
    (.error (.AssignmentNameNotUnique t.name assign.name code), t)
  else
    match findClass t.classes code with
    | none => (.error (.ClassCodeNone t.name code), t)
    | some c =>
        match c.add_total_value (assign.value.getD 0) with
        | (.error e, _) => (.error e, t)
        | (.ok _, c1) =>
            (.ok (),
              { t with
                classes := setFirstClass t.classes code c1
                map := mapInsert t.map assign.id code
                assignments := t.assignments ++ [assign] })

/-- Embeds `Tracker::remove_assignment`: bails with `AssignmentIdNone`
when the id is absent, otherwise removes the map entry and the
assignment and returns it. -/
def Tracker.remove_assignment (t : Tracker) (assign_id : Nat) :
    Except InvalidTrackerError Assignment × Tracker :=
  match findAssign t.assignments assign_id with
  | none => (.error (.AssignmentIdNone t.name assign_id), t)
  | some a =>
      (.ok a,
        { t with
          map := mapEraseKey t.map assign_id
          assignments := eraseFirstAssign t.assignments assign_id })

/-- Embeds the default `Trackerlike::get_assignment`: linear search of
the flat assignment list (not the map). -/
def Tracker.get_assignment (t : Tracker) (id : Nat) : Option Assignment :=
  findAssign t.assignments id

/-- Embeds the default `Trackerlike::get_class`. -/
def Tracker.get_class (t : Tracker) (code : String) : Option TClass :=
  findClass t.classes code

/-- One public mutation step of the tracker; the post state of a failed
call equals the pre state, so failed calls are harmless steps. -/
inductive TStep : Tracker → Tracker → Prop where
  | add_class (t : Tracker) (c : TClass) : TStep t (t.add_class c).2
  | remove_class (t : Tracker) (code : String) : TStep t (t.remove_class code).2
  | add_assignment (t : Tracker) (code : String) (a : Assignment) :
      TStep t (t.add_assignment code a).2
  | remove_assignment (t : Tracker) (id : Nat) : TStep t (t.remove_assignment id).2

/-- Tracker states reachable from a start state by public mutations. -/
inductive TReach (t0 : Tracker) : Tracker → Prop where
  | refl : TReach t0 t0
  | step {t t1 : Tracker} : TReach t0 t → TStep t t1 → TReach t0 t1

/-- No two classes share a code. -/
def Tracker.codesUnique (t : Tracker) : Prop :=
  t.classes.Pairwise (fun c1 c2 => c1.code ≠ c2.code)

/-- No two assignments share an id. -/
def Tracker.idsUnique (t : Tracker) : Prop :=
  t.assignments.Pairwise (fun a1 a2 => a1.id ≠ a2.id)

/-- No two assignments mapped to the same class share a name. -/
def Tracker.namesUniquePerClass (t : Tracker) : Prop :=
  ∀ a1 ∈ t.assignments, ∀ a2 ∈ t.assignments, a1.id ≠ a2.id →
    ∀ code, mapGet t.map a1.id = some code → mapGet t.map a2.id = some code →
      a1.name ≠ a2.name

/-- Every map entry points at a stored assignment and a stored class. -/
def Tracker.mapConsistent (t : Tracker) : Prop :=
  ∀ p ∈ t.map, (∃ a ∈ t.assignments, a.id = p.1) ∧ (∃ c ∈ t.classes, c.code = p.2)

/-- Internal well-formedness of a tracker state: the three uniqueness
invariants, unique map keys, and map consistency. -/
def Tracker.WF (t : Tracker) : Prop :=
  t.codesUnique ∧ t.idsUnique ∧
  (t.map.map (fun p => p.1)).Pairwise (fun i j => i ≠ j) ∧
  t.mapConsistent ∧ t.namesUniquePerClass

end TrackerCore

namespace ClassCore

/-- Embeds the `Assignment` of the iteration that `class.rs` belongs to:
a required id, name and value, plus an optional mark.  Its own source
file is not in the repository snapshot; `class.rs` only reads the
`id()`, `name()` and `value()` accessors of this type, so the record
below is all `class.rs` depends on. -/
structure Assignment where
  id : Nat
  name : String
  value : Rat
  mark : Option Rat
deriving DecidableEq, Repr

/-- One error per `err!` site in `class.rs` (the macro bails with an
`anyhow` message; the variants below name the distinct sites). -/
inductive ClassError where
  | ShortNameEmpty
  | ShortNameTooLong
  | TotalValueExceeded
  | IdTaken
  | NameTaken
  | NotFound
  | MarkOutOfRange
deriving DecidableEq, Repr

/-- Modelled from the spec: the `MAX_NAME_LEN` constant imported by
`class.rs` is not in the sources; the spec suggests a bound of 32 to 48
bytes. -/
def MAX_NAME_LEN : Nat := 48

/-- Association-list embedding of the `HashMap<u64, Assignment>` owned
by `Class`: lookup by key. -/
def hmGet : List (Nat × Assignment) → Nat → Option Assignment
  | [], _ => none
  | p :: rest, id => if p.1 = id then some p.2 else hmGet rest id

/-- Association-list embedding of `HashMap::remove`. -/
def hmEraseKey (m : List (Nat × Assignment)) (id : Nat) :
    List (Nat × Assignment) :=
  m.filter (fun p => decide (p.1 ≠ id))

/-- Association-list embedding of `HashMap::insert` (overwrites the
entry for the key). -/
def hmInsert (m : List (Nat × Assignment)) (id : Nat) (a : Assignment) :
    List (Nat × Assignment) :=
  (id, a) :: hmEraseKey m id

/-- Sum of the values of the stored assignments. -/
def sumValues (m : List (Nat × Assignment)) : Rat :=
  m.foldr (fun p acc => p.2.value + acc) 0

/-- Embeds the `Class` struct from `src/tracker/core/src/class.rs`. -/
structure Class where
  id : Nat
  short_name : String
  assignments : List (Nat × Assignment)
  total_value : Rat
deriving DecidableEq, Repr

/-- Embeds `Class::new`: rejects an empty short name and a short name
longer than `MAX_NAME_LEN` bytes, otherwise starts with no assignments
and `total_value = 0.0`. -/
def Class.new (id : Nat) (short_name : String) : Except ClassError Class :=
  if short_name = "" then .error .ShortNameEmpty
  else if short_name.utf8ByteSize > MAX_NAME_LEN then .error .ShortNameTooLong
  else .ok { id := id, short_name := short_name, assignments := [], total_value := 0 }

/-- Embeds `Class::add_assignment`: value-bound check first, then id
uniqueness, then name uniqueness; on success `total_value` becomes the
new total and the assignment is inserted keyed by its id. -/
def Class.add_assignment (c : Class) (assign : Assignment) :
    Except ClassError Unit × Class :=
  let total := c.total_value + assign.value
  if 100 < total then (.error .TotalValueExceeded, c)
  else if c.assignments.any (fun p => p.1 = assign.id) then (.error .IdTaken, c)
  else if c.assignments.any (fun p => p.2.name = assign.name) then (.error .NameTaken, c)
  else
    (.ok (),
      { c with
        total_value := total
        assignments := hmInsert c.assignments assign.id assign })

/-- Embeds `Class::remove_assignment`: removes and returns the
assignment with the id, or fails with the not-found error.  Note the
source does not subtract the removed value from `total_value`. -/
def Class.remove_assignment (c : Class) (id : Nat) :
    Except ClassError Assignment × Class :=
  match hmGet c.assignments id with
  | some a => (.ok a, { c with assignments := hmEraseKey c.assignments id })
  | none => (.error .NotFound, c)

/-- Class states reachable from a start state by a sequence of
`add_assignment` calls (the post state of a failed call equals the pre
state). -/
inductive AddReach (c0 : Class) : Class → Prop where
  | refl : AddReach c0 c0
  | step {c : Class} (a : Assignment) :
      AddReach c0 c → AddReach c0 (c.add_assignment a).2

end ClassCore

/-! Helper lemmas and claim theorems. -/

theorem except_isOk_ok {ε α : Type} (x : α) : (Except.ok x : Except ε α).isOk = true := rfl

theorem except_isOk_error {ε α : Type} (e : ε) : (Except.error e : Except ε α).isOk = false := rfl

/-- C6: Mark.percent succeeds iff the value is within 0 to 100,
Mark.letter succeeds iff the char is an uppercase ASCII letter,
Mark.out_of succeeds iff the left value is at most the right value, and
Mark.check_valid on a directly constructed variant succeeds under
exactly the same per-variant conditions as the constructors. -/
theorem C6_mark_range_laws (v : Rat) (c : Char) (a b : Nat) :
    ((TrackerCore.Mark.percent v).isOk = true ↔ (0 ≤ v ∧ v ≤ 100)) ∧
    ((TrackerCore.Mark.letter c).isOk = true ↔ ('A' ≤ c ∧ c ≤ 'Z')) ∧
    ((TrackerCore.Mark.out_of a b).isOk = true ↔ a ≤ b) ∧
    ((TrackerCore.Mark.Percent v).check_valid.isOk = (TrackerCore.Mark.percent v).isOk) ∧
    ((TrackerCore.Mark.Letter c).check_valid.isOk = (TrackerCore.Mark.letter c).isOk) ∧
    ((TrackerCore.Mark.OutOf a b).check_valid.isOk = (TrackerCore.Mark.out_of a b).isOk) := by
  refine ⟨?_, ?_, ?_, ?_, ?_, ?_⟩
  · by_cases h : (0 ≤ v ∧ v ≤ 100) <;>
      simp [TrackerCore.Mark.percent, h, except_isOk_ok, except_isOk_error]
  · by_cases h : ('A' ≤ c ∧ c ≤ 'Z') <;>
      simp [TrackerCore.Mark.letter, h, except_isOk_ok, except_isOk_error]
  · by_cases h : a > b <;>
      simp [TrackerCore.Mark.out_of, h, except_isOk_ok, except_isOk_error] <;> omega
  · by_cases h : (0 ≤ v ∧ v ≤ 100) <;>
      simp [TrackerCore.Mark.percent, TrackerCore.Mark.check_valid, h] <;> rfl
  · by_cases h : ('A' ≤ c ∧ c ≤ 'Z') <;>
      simp [TrackerCore.Mark.letter, TrackerCore.Mark.check_valid, h] <;> rfl
  · by_cases h : a > b <;>
      simp [TrackerCore.Mark.out_of, TrackerCore.Mark.check_valid, h] <;> rfl

/-- C6 witness: the laws evaluated at concrete boundary inputs. -/
theorem C6_mark_range_laws_witness :
    (TrackerCore.Mark.percent 100).isOk = true ∧
    (TrackerCore.Mark.letter 'Z').isOk = true ∧
    (TrackerCore.Mark.out_of 9 9).isOk = true :=
  ⟨(C6_mark_range_laws 100 'Z' 9 9).1.mpr (by norm_num),
   (C6_mark_range_laws 100 'Z' 9 9).2.1.mpr (by decide),
   (C6_mark_range_laws 100 'Z' 9 9).2.2.1.mpr (by decide)⟩

/-- C9 counterexample: the claim says constructing an Assignment with an
empty name fails with a name-length error; in the code `Assignment::new`
never validates the name, so construction with the empty name (and a
valid weight attached through the builder) succeeds. -/
theorem C9_name_check_counterexample :
    (TrackerCore.Assignment.new 0 "").name = "" ∧
    ((TrackerCore.Assignment.new 0 "").with_value 50).isOk = true := by
  constructor
  · rfl
  · rfl

/-- C9 amended: Assignment construction never validates the name
(`Assignment::new` is infallible and accepts any name, including the
empty one); attaching the weight through `with_value` fails with
`AssignmentError::Value` exactly when the weight is outside 0 to 100. -/
theorem C9_construction_value_only (id : Nat) (name : String) (w : Rat) :
    (TrackerCore.Assignment.new id name).name = name ∧
    (((TrackerCore.Assignment.new id name).with_value w).isOk = true ↔
      (0 ≤ w ∧ w ≤ 100)) ∧
    (¬(0 ≤ w ∧ w ≤ 100) →
      (TrackerCore.Assignment.new id name).with_value w =
        Except.error (TrackerCore.AssignmentError.Value w)) := by
  refine ⟨rfl, ?_, ?_⟩
  · by_cases h : (0 ≤ w ∧ w ≤ 100) <;>
      simp [TrackerCore.Assignment.with_value, TrackerCore.Assignment.set_value, h] <;> rfl
  · intro h
    simp [TrackerCore.Assignment.with_value, TrackerCore.Assignment.set_value, h]

/-- C9 witness: the amended claim evaluated at a concrete out-of-range
weight. -/
theorem C9_construction_value_only_witness :
    (TrackerCore.Assignment.new 7 "Exam").with_value 101 =
      Except.error (TrackerCore.AssignmentError.Value 101) :=
  (C9_construction_value_only 7 "Exam" 101).2.2 (by norm_num)

/-- C5 code evaluation: after creating a class, adding an assignment of
value 60 and removing it again, the code returns the added assignment
and an empty assignment collection, but `total_value` is still 60 (the
claim says it is restored to 0: `Class::remove_assignment` never
subtracts the removed value). -/
theorem C5_remove_keeps_total_value_eval :
    (ClassCore.Class.new 0 "C101" =
      Except.ok { id := 0, short_name := "C101", assignments := [], total_value := 0 }) ∧
    (({ id := 0, short_name := "C101", assignments := [], total_value := 0 } : ClassCore.Class).add_assignment
        { id := 0, name := "A1", value := 60, mark := none } =
      (Except.ok (),
        { id := 0, short_name := "C101",
          assignments := [(0, { id := 0, name := "A1", value := 60, mark := none })],
          total_value := 60 })) ∧
    (({ id := 0, short_name := "C101",
        assignments := [(0, { id := 0, name := "A1", value := 60, mark := none })],
        total_value := 60 } : ClassCore.Class).remove_assignment 0 =
      (Except.ok { id := 0, name := "A1", value := 60, mark := none },
        { id := 0, short_name := "C101", assignments := [], total_value := 60 })) := by
  refine ⟨rfl, ?_, ?_⟩
  · norm_num [ClassCore.Class.add_assignment, ClassCore.hmInsert, ClassCore.hmEraseKey]
  · rfl

theorem hmEraseKey_eq_self (m : List (Nat × ClassCore.Assignment)) (k : Nat)
    (h : m.any (fun p => p.1 = k) = false) : ClassCore.hmEraseKey m k = m := by
  unfold ClassCore.hmEraseKey
  apply List.filter_eq_self.mpr
  intro p hp
  simp only [List.any_eq_false, decide_eq_true_eq] at h
  simpa using h p hp

theorem sumValues_cons (k : Nat) (a : ClassCore.Assignment)
    (m : List (Nat × ClassCore.Assignment)) :
    ClassCore.sumValues ((k, a) :: m) = a.value + ClassCore.sumValues m := rfl

theorem add_assignment_exceeded (c : ClassCore.Class) (a : ClassCore.Assignment)
    (h : 100 < c.total_value + a.value) :
    c.add_assignment a = (Except.error ClassCore.ClassError.TotalValueExceeded, c) := by
  simp [ClassCore.Class.add_assignment, h]

/-- C7: in Class::add_assignment the total-value bound is checked first,
then id uniqueness within the class, then name uniqueness; an assignment
that both pushes the sum over 100 and duplicates an id or name gets the
total-value-exceeded error. -/
theorem C7_add_assignment_check_order (c : ClassCore.Class) (a : ClassCore.Assignment) :
    (100 < c.total_value + a.value →
      c.add_assignment a = (Except.error ClassCore.ClassError.TotalValueExceeded, c)) ∧
    (¬(100 < c.total_value + a.value) →
      (∃ p ∈ c.assignments, p.1 = a.id) →
      c.add_assignment a = (Except.error ClassCore.ClassError.IdTaken, c)) ∧
    (¬(100 < c.total_value + a.value) →
      (¬ ∃ p ∈ c.assignments, p.1 = a.id) →
      (∃ p ∈ c.assignments, p.2.name = a.name) →
      c.add_assignment a = (Except.error ClassCore.ClassError.NameTaken, c)) := by
  refine ⟨fun h => add_assignment_exceeded c a h, ?_, ?_⟩
  · intro h hid
    have hany : c.assignments.any (fun p => p.1 = a.id) = true := by
      simpa [List.any_eq_true] using hid
    simp [ClassCore.Class.add_assignment, h, hany]
  · intro h hid hnm
    have hany : c.assignments.any (fun p => p.1 = a.id) = false := by
      by_contra hcon
      rw [Bool.not_eq_false, List.any_eq_true] at hcon
      obtain ⟨p, hp, hpe⟩ := hcon
      exact hid ⟨p, hp, by simpa using hpe⟩
    have hany2 : c.assignments.any (fun p => p.2.name = a.name) = true := by
      simpa [List.any_eq_true] using hnm
    simp [ClassCore.Class.add_assignment, h, hany, hany2]

/-- C7 witness: a class at total value 90 with an assignment of id 0 and
name A1; adding an assignment that reuses both the id and the name and
pushes the total to 110 is rejected with the total-value error. -/
theorem C7_add_assignment_check_order_witness :
    ({ id := 0, short_name := "C101",
       assignments := [(0, { id := 0, name := "A1", value := 90, mark := none })],
       total_value := 90 } : ClassCore.Class).add_assignment
      { id := 0, name := "A1", value := 20, mark := none } =
    (Except.error ClassCore.ClassError.TotalValueExceeded,
      { id := 0, short_name := "C101",
        assignments := [(0, { id := 0, name := "A1", value := 90, mark := none })],
        total_value := 90 }) :=
  (C7_add_assignment_check_order _ _).1 (by norm_num)

theorem class_new_shape (id0 : Nat) (nm : String) (c0 : ClassCore.Class)
    (hnew : ClassCore.Class.new id0 nm = Except.ok c0) :
    c0.id = id0 ∧ c0.short_name = nm ∧ c0.assignments = [] ∧ c0.total_value = 0 := by
  unfold ClassCore.Class.new at hnew
  split at hnew
  · exact absurd hnew (by simp)
  · split at hnew
    · exact absurd hnew (by simp)
    · injection hnew with h
      subst h
      exact ⟨rfl, rfl, rfl, rfl⟩

theorem add_assignment_snd_cases (c : ClassCore.Class) (a : ClassCore.Assignment) :
    (c.add_assignment a).2 = c ∨
    (¬(100 < c.total_value + a.value) ∧
      c.assignments.any (fun p => p.1 = a.id) = false ∧
      (c.add_assignment a).2 =
        { c with
          total_value := c.total_value + a.value
          assignments := ClassCore.hmInsert c.assignments a.id a }) := by
  unfold ClassCore.Class.add_assignment
  by_cases h1 : 100 < c.total_value + a.value
  · left; simp [h1]
  · by_cases h2 : c.assignments.any (fun p => p.1 = a.id) = true
    · left; simp [h1, h2]
    · by_cases h3 : c.assignments.any (fun p => p.2.name = a.name) = true
      · left; simp [h1, h2, h3]
      · right
        refine ⟨h1, Bool.eq_false_iff.mpr h2, ?_⟩
        simp [h1, h2, h3]

/-- C2: starting from a successfully constructed Class, along any
sequence of add_assignment calls the total_value always equals the sum
of the stored assignment values and never exceeds 100, and a call whose
assignment value would push the sum over 100 fails with the
total-value-exceeded error and leaves the class unchanged. -/
theorem C2_weight_sum_invariant (id0 : Nat) (nm : String) (c0 c : ClassCore.Class)
    (hnew : ClassCore.Class.new id0 nm = Except.ok c0)
    (h : ClassCore.AddReach c0 c) :
    c.total_value = ClassCore.sumValues c.assignments ∧
    c.total_value ≤ 100 ∧
    (∀ a : ClassCore.Assignment, 100 < c.total_value + a.value →
      c.add_assignment a = (Except.error ClassCore.ClassError.TotalValueExceeded, c)) := by
  have hbase := class_new_shape id0 nm c0 hnew
  have main : c.total_value = ClassCore.sumValues c.assignments ∧ c.total_value ≤ 100 := by
    induction h with
    | refl =>
        refine ⟨?_, ?_⟩
        · rw [hbase.2.2.1, hbase.2.2.2]; rfl
        · rw [hbase.2.2.2]; norm_num
    | step a hr ih =>
        rename_i cmid
        rcases add_assignment_snd_cases cmid a with hsame | ⟨h1, h2, hnew2⟩
        · rw [hsame]; exact ih
        · rw [hnew2]
          refine ⟨?_, ?_⟩
          · show cmid.total_value + a.value =
              ClassCore.sumValues (ClassCore.hmInsert cmid.assignments a.id a)
            unfold ClassCore.hmInsert
            rw [hmEraseKey_eq_self cmid.assignments a.id h2, sumValues_cons, ih.1]
            ring
          · show cmid.total_value + a.value ≤ 100
            exact le_of_not_lt h1
  exact ⟨main.1, main.2, fun a ha => add_assignment_exceeded c a ha⟩

/-- C2 witness: the invariant evaluated on the class obtained by one
successful add of a value-60 assignment to a fresh class. -/
theorem C2_weight_sum_invariant_witness :
    (let c := (({ id := 0, short_name := "C101", assignments := [], total_value := 0 } :
        ClassCore.Class).add_assignment
        { id := 0, name := "A1", value := 60, mark := none }).2
     c.total_value = ClassCore.sumValues c.assignments ∧
     c.total_value ≤ 100 ∧
     (∀ a : ClassCore.Assignment, 100 < c.total_value + a.value →
       c.add_assignment a = (Except.error ClassCore.ClassError.TotalValueExceeded, c))) :=
  C2_weight_sum_invariant 0 "C101" _ _ rfl
    (ClassCore.AddReach.step { id := 0, name := "A1", value := 60, mark := none }
      ClassCore.AddReach.refl)

theorem set_status_snd (a : TrackerCore.Assignment) (s : TrackerCore.Status) :
    (a.set_status s).2 = a ∨
    ((a.set_status s).2 = { a with status := s } ∧
      (a.mark ≠ none → s = TrackerCore.Status.marked) ∧
      (a.mark = none → s ≠ TrackerCore.Status.marked)) := by
  unfold TrackerCore.Assignment.set_status
  cases hm : a.mark with
  | some m =>
      by_cases hs : s = TrackerCore.Status.marked
      · right
        exact ⟨by simp [hs], fun _ => hs, fun hn => nomatch hn⟩
      · left; simp [hs]
  | none =>
      by_cases hs : s = TrackerCore.Status.marked
      · left; simp [hs]
      · right
        exact ⟨by simp [hs], fun hn => absurd rfl hn, fun _ => hs⟩

theorem markStatusInv_set_status (a : TrackerCore.Assignment) (s : TrackerCore.Status)
    (h : TrackerCore.MarkStatusInv a) : TrackerCore.MarkStatusInv (a.set_status s).2 := by
  rcases set_status_snd a s with he | ⟨he, h1, h2⟩
  · rw [he]; exact h
  · rw [he]
    unfold TrackerCore.MarkStatusInv at *
    constructor
    · intro hs
      simp only at hs
      intro hmn
      exact h2 hmn hs
    · intro hmn
      simp only at hmn ⊢
      by_cases hmm : a.mark = none
      · exact absurd hmm hmn
      · exact h1 hmm

theorem markStatusInv_set_value (a : TrackerCore.Assignment) (v : Rat)
    (h : TrackerCore.MarkStatusInv a) : TrackerCore.MarkStatusInv (a.set_value v).2 := by
  unfold TrackerCore.Assignment.set_value
  by_cases hv : (0 ≤ v ∧ v ≤ 100)
  · simpa [hv, TrackerCore.MarkStatusInv] using h
  · simpa [hv, TrackerCore.MarkStatusInv] using h

theorem set_mark_ok (a : TrackerCore.Assignment) (m : TrackerCore.Mark)
    (a1 : TrackerCore.Assignment) (h : a.set_mark m = (Except.ok (), a1)) :
    a1 = { a with mark := some m, status := TrackerCore.Status.marked } := by
  unfold TrackerCore.Assignment.set_mark at h
  cases hc : m.check_valid with
  | error e => rw [hc] at h; simp at h
  | ok u =>
      rw [hc] at h
      simp only [TrackerCore.Assignment.set_status] at h
      simp at h
      exact h.symm

theorem set_mark_snd_cases (a : TrackerCore.Assignment) (m : TrackerCore.Mark) :
    (a.set_mark m).2 = a ∨
    (a.set_mark m).2 = { a with mark := some m, status := TrackerCore.Status.marked } := by
  unfold TrackerCore.Assignment.set_mark
  cases hc : m.check_valid with
  | error e => left; rfl
  | ok u =>
      right
      simp [TrackerCore.Assignment.set_status]

theorem remove_mark_eq (a : TrackerCore.Assignment) :
    a.remove_mark = { a with mark := none, status := TrackerCore.Status.incomplete } := rfl

theorem with_value_ok (a : TrackerCore.Assignment) (v : Rat) (a1 : TrackerCore.Assignment)
    (h : a.with_value v = Except.ok a1) : a1 = (a.set_value v).2 := by
  unfold TrackerCore.Assignment.with_value at h
  cases hs : a.set_value v with
  | mk r a2 =>
      rw [hs] at h
      cases r with
      | error e => simp at h
      | ok u => simp at h; simp [h]

theorem with_status_ok (a : TrackerCore.Assignment) (s : TrackerCore.Status)
    (a1 : TrackerCore.Assignment) (h : a.with_status s = Except.ok a1) :
    a1 = (a.set_status s).2 := by
  unfold TrackerCore.Assignment.with_status at h
  cases hs : a.set_status s with
  | mk r a2 =>
      rw [hs] at h
      cases r with
      | error e => simp at h
      | ok u => simp at h; simp [h]

theorem with_mark_ok (a : TrackerCore.Assignment) (m : TrackerCore.Mark)
    (a1 : TrackerCore.Assignment) (h : a.with_mark m = Except.ok a1) :
    a1 = { a with mark := some m, status := TrackerCore.Status.marked } := by
  unfold TrackerCore.Assignment.with_mark at h
  cases hs : a.set_mark m with
  | mk r a2 =>
      rw [hs] at h
      cases r with
      | error e => simp at h
      | ok u =>
          cases u
          have ha2 := set_mark_ok a m a2 hs
      
          subst ha2
          simp only [TrackerCore.Assignment.set_status] at h
          simp at h
          simp [h.symm]

theorem markStatusInv_new (id0 : Nat) (nm : String) :
    TrackerCore.MarkStatusInv (TrackerCore.Assignment.new id0 nm) := by
  unfold TrackerCore.MarkStatusInv TrackerCore.Assignment.new TrackerCore.Status.default
  simp

theorem markStatusInv_astep (a a1 : TrackerCore.Assignment)
    (hstep : TrackerCore.AStep a a1) (h : TrackerCore.MarkStatusInv a) :
    TrackerCore.MarkStatusInv a1 := by
  cases hstep with
  | set_value v => exact markStatusInv_set_value a v h
  | remove_value =>
      unfold TrackerCore.MarkStatusInv TrackerCore.Assignment.remove_value at *
      simpa using h
  | set_mark m =>
      rcases set_mark_snd_cases a m with he | he
      · rw [he]; exact h
      · rw [he]; unfold TrackerCore.MarkStatusInv; simp
  | remove_mark =>
      rw [remove_mark_eq]
      unfold TrackerCore.MarkStatusInv
      simp
  | set_due_date d =>
      unfold TrackerCore.MarkStatusInv TrackerCore.Assignment.set_due_date at *
      simpa using h
  | remove_due_date =>
      unfold TrackerCore.MarkStatusInv TrackerCore.Assignment.remove_due_date at *
      simpa using h
  | set_status s => exact markStatusInv_set_status a s h
  | with_value v hv =>
      rw [with_value_ok _ v _ hv]
      exact markStatusInv_set_value _ v h
  | with_mark m hm =>
      rw [with_mark_ok _ m _ hm]
      unfold TrackerCore.MarkStatusInv; simp
  | with_due_date d =>
      unfold TrackerCore.MarkStatusInv TrackerCore.Assignment.with_due_date at *
      simpa using h
  | with_status s hs =>
      rw [with_status_ok _ s _ hs]
      exact markStatusInv_set_status _ s h

/-- C8: for every assignment reachable from Assignment::new through the
public setters, clearers and builders, the status is Marked exactly when
a mark is present; moreover a successful set_mark always leaves the
status Marked and remove_mark always leaves it not Marked. -/
theorem C8_mark_status_coupling (id0 : Nat) (nm : String) (a : TrackerCore.Assignment)
    (h : TrackerCore.AReach (TrackerCore.Assignment.new id0 nm) a) :
    TrackerCore.MarkStatusInv a ∧
    (∀ (m : TrackerCore.Mark) (a1 : TrackerCore.Assignment),
      a.set_mark m = (Except.ok (), a1) → a1.status = TrackerCore.Status.marked) ∧
    a.remove_mark.status ≠ TrackerCore.Status.marked := by
  have hinv : TrackerCore.MarkStatusInv a := by
    induction h with
    | refl => exact markStatusInv_new id0 nm
    | step hr hstep ih => exact markStatusInv_astep _ _ hstep ih
  refine ⟨hinv, ?_, ?_⟩
  · intro m a1 hm
    rw [set_mark_ok a m a1 hm]
  · rw [remove_mark_eq]
    simp

/-- C8 witness: the coupling evaluated on the assignment obtained from
Assignment::new by one successful set_mark. -/
theorem C8_mark_status_coupling_witness :
    (let a := ((TrackerCore.Assignment.new 0 "A1").set_mark (TrackerCore.Mark.Letter 'A')).2
     TrackerCore.MarkStatusInv a ∧
     (∀ (m : TrackerCore.Mark) (a1 : TrackerCore.Assignment),
       a.set_mark m = (Except.ok (), a1) → a1.status = TrackerCore.Status.marked) ∧
     a.remove_mark.status ≠ TrackerCore.Status.marked) :=
  C8_mark_status_coupling 0 "A1" _
    (TrackerCore.AReach.step TrackerCore.AReach.refl
      (TrackerCore.AStep.set_mark (TrackerCore.Assignment.new 0 "A1")
        (TrackerCore.Mark.Letter 'A')))


theorem mapGet_eq_some_mem (m : List (Nat × String)) (id : Nat) (s : String)
    (h : TrackerCore.mapGet m id = some s) : (id, s) ∈ m := by
  induction m with
  | nil => cases h
  | cons p rest ih =>
      unfold TrackerCore.mapGet at h
      by_cases hp : p.1 = id
      · rw [if_pos hp] at h
        injection h with h
        have : p = (id, s) := by
          rw [Prod.ext_iff]; exact ⟨hp, h⟩
        rw [← this]
        exact List.mem_cons_self p rest
      · rw [if_neg hp] at h
        exact List.mem_cons_of_mem p (ih h)

theorem mapGet_eq_none_iff (m : List (Nat × String)) (id : Nat) :
    TrackerCore.mapGet m id = none ↔ ∀ p ∈ m, p.1 ≠ id := by
  induction m with
  | nil => simp [TrackerCore.mapGet]
  | cons p rest ih =>
      unfold TrackerCore.mapGet
      by_cases hp : p.1 = id
      · simp [hp]
      · simp only [if_neg hp, ih]
        constructor
        · intro hall q hq
          rcases List.mem_cons.mp hq with hq | hq
          · rw [hq]; exact hp
          · exact hall q hq
        · intro hall q hq
          exact hall q (List.mem_cons_of_mem p hq)

theorem mapGet_mem_of_keysUnique (m : List (Nat × String)) (id : Nat) (s : String)
    (hu : (m.map (fun p => p.1)).Pairwise (fun i j => i ≠ j))
    (hmem : (id, s) ∈ m) : TrackerCore.mapGet m id = some s := by
  induction m with
  | nil => cases hmem
  | cons p rest ih =>
      rw [List.map_cons, List.pairwise_cons] at hu
      unfold TrackerCore.mapGet
      rcases List.mem_cons.mp hmem with hmem | hmem
      · rw [← hmem]
        simp
      · have hne : p.1 ≠ id := by
          intro he
          exact hu.1 id (List.mem_map_of_mem (fun q => q.1) hmem) he
        rw [if_neg hne]
        exact ih hu.2 hmem

theorem mem_mapEraseKey (m : List (Nat × String)) (k : Nat) (p : Nat × String) :
    p ∈ TrackerCore.mapEraseKey m k ↔ p ∈ m ∧ p.1 ≠ k := by
  unfold TrackerCore.mapEraseKey
  simp [List.mem_filter]

theorem mapEraseKey_sublist (m : List (Nat × String)) (k : Nat) :
    List.Sublist (TrackerCore.mapEraseKey m k) m :=
  List.filter_sublist m

theorem mapGet_mapEraseKey (m : List (Nat × String)) (k y : Nat) :
    TrackerCore.mapGet (TrackerCore.mapEraseKey m k) y =
      if y = k then none else TrackerCore.mapGet m y := by
  induction m with
  | nil => simp [TrackerCore.mapEraseKey, TrackerCore.mapGet]
  | cons p rest ih =>
      unfold TrackerCore.mapEraseKey at *
      by_cases hp : p.1 = k
      · rw [List.filter_cons_of_neg (by simp [hp])]
        rw [ih]
        by_cases hy : y = k
        · simp [hy]
        · rw [if_neg hy, if_neg hy]
          conv_rhs => unfold TrackerCore.mapGet
          rw [if_neg (by rw [hp]; exact fun he => hy he.symm)]
      · rw [List.filter_cons_of_pos (by simp [hp])]
        conv_lhs => unfold TrackerCore.mapGet
        conv_rhs => unfold TrackerCore.mapGet
        by_cases hpy : p.1 = y
        · rw [if_pos hpy, if_pos hpy,
            if_neg (show ¬y = k from fun he => hp (he ▸ hpy))]
        · rw [if_neg hpy, if_neg hpy, ih]

theorem mapGet_mapInsert_self (m : List (Nat × String)) (k : Nat) (v : String) :
    TrackerCore.mapGet (TrackerCore.mapInsert m k v) k = some v := by
  unfold TrackerCore.mapInsert TrackerCore.mapGet
  simp

theorem mapGet_mapInsert_ne (m : List (Nat × String)) (k : Nat) (v : String) (y : Nat)
    (h : y ≠ k) :
    TrackerCore.mapGet (TrackerCore.mapInsert m k v) y = TrackerCore.mapGet m y := by
  unfold TrackerCore.mapInsert
  conv_lhs => unfold TrackerCore.mapGet
  rw [if_neg (fun he => h he.symm), mapGet_mapEraseKey, if_neg h]

theorem mem_mapInsert (m : List (Nat × String)) (k : Nat) (v : String) (p : Nat × String) :
    p ∈ TrackerCore.mapInsert m k v ↔ p = (k, v) ∨ (p ∈ m ∧ p.1 ≠ k) := by
  unfold TrackerCore.mapInsert
  rw [List.mem_cons, mem_mapEraseKey]

theorem keysUnique_mapInsert (m : List (Nat × String)) (k : Nat) (v : String)
    (hu : (m.map (fun p => p.1)).Pairwise (fun i j => i ≠ j)) :
    ((TrackerCore.mapInsert m k v).map (fun p => p.1)).Pairwise (fun i j => i ≠ j) := by
  unfold TrackerCore.mapInsert
  rw [List.map_cons, List.pairwise_cons]
  constructor
  · intro y hy he
    rw [List.mem_map] at hy
    obtain ⟨q, hq, hqy⟩ := hy
    rw [mem_mapEraseKey] at hq
    exact hq.2 (hqy.trans he.symm)
  · exact List.Pairwise.sublist ((mapEraseKey_sublist m k).map (fun p => p.1)) hu

theorem mem_mapEraseKeys (m : List (Nat × String)) (ids : List Nat) (p : Nat × String) :
    p ∈ TrackerCore.mapEraseKeys m ids ↔ p ∈ m ∧ p.1 ∉ ids := by
  induction ids generalizing m with
  | nil => simp [TrackerCore.mapEraseKeys]
  | cons k rest ih =>
      unfold TrackerCore.mapEraseKeys at *
      rw [List.foldl_cons, ih, mem_mapEraseKey]
      simp only [List.mem_cons]
      constructor
      · rintro ⟨⟨hp, hk⟩, hr⟩
        exact ⟨hp, fun hc => hc.elim hk hr⟩
      · rintro ⟨hp, hc⟩
        exact ⟨⟨hp, fun he => hc (Or.inl he)⟩, fun he => hc (Or.inr he)⟩

theorem mapGet_mapEraseKeys (m : List (Nat × String)) (ids : List Nat) (y : Nat) :
    TrackerCore.mapGet (TrackerCore.mapEraseKeys m ids) y =
      if y ∈ ids then none else TrackerCore.mapGet m y := by
  induction ids generalizing m with
  | nil => simp [TrackerCore.mapEraseKeys]
  | cons k rest ih =>
      unfold TrackerCore.mapEraseKeys at *
      rw [List.foldl_cons, ih, mapGet_mapEraseKey]
      by_cases h1 : y ∈ rest
      · simp [h1]
      · by_cases h2 : y = k
        · simp [h1, h2]
        · simp [h1, h2]

theorem mapEraseKeys_sublist (m : List (Nat × String)) (ids : List Nat) :
    List.Sublist (TrackerCore.mapEraseKeys m ids) m := by
  induction ids generalizing m with
  | nil => exact List.Sublist.refl m
  | cons k rest ih =>
      unfold TrackerCore.mapEraseKeys at *
      rw [List.foldl_cons]
      exact (ih (TrackerCore.mapEraseKey m k)).trans (mapEraseKey_sublist m k)

theorem keysUnique_sublist (m m1 : List (Nat × String))
    (hs : List.Sublist m1 m)
    (hu : (m.map (fun p => p.1)).Pairwise (fun i j => i ≠ j)) :
    (m1.map (fun p => p.1)).Pairwise (fun i j => i ≠ j) :=
  List.Pairwise.sublist (hs.map (fun p => p.1)) hu

theorem findClass_eq_some (l : List TrackerCore.TClass) (code : String)
    (c : TrackerCore.TClass) (h : TrackerCore.findClass l code = some c) :
    c ∈ l ∧ c.code = code := by
  induction l with
  | nil => cases h
  | cons c0 rest ih =>
      unfold TrackerCore.findClass at h
      by_cases hc : c0.code = code
      · rw [if_pos hc] at h
        injection h with h
        rw [← h]
        exact ⟨List.mem_cons_self c0 rest, hc⟩
      · rw [if_neg hc] at h
        obtain ⟨h1, h2⟩ := ih h
        exact ⟨List.mem_cons_of_mem c0 h1, h2⟩

theorem findClass_eq_none_iff (l : List TrackerCore.TClass) (code : String) :
    TrackerCore.findClass l code = none ↔ ∀ c ∈ l, c.code ≠ code := by
  induction l with
  | nil => simp [TrackerCore.findClass]
  | cons c0 rest ih =>
      unfold TrackerCore.findClass
      by_cases hc : c0.code = code
      · simp [hc]
      · simp only [if_neg hc, ih]
        constructor
        · intro hall c hcmem
          rcases List.mem_cons.mp hcmem with hcmem | hcmem
          · rw [hcmem]; exact hc
          · exact hall c hcmem
        · intro hall c hcmem
          exact hall c (List.mem_cons_of_mem c0 hcmem)

theorem eraseFirstClass_sublist (l : List TrackerCore.TClass) (code : String) :
    List.Sublist (TrackerCore.eraseFirstClass l code) l := by
  induction l with
  | nil => exact List.Sublist.refl []
  | cons c0 rest ih =>
      unfold TrackerCore.eraseFirstClass
      by_cases hc : c0.code = code
      · rw [if_pos hc]
        exact List.sublist_cons_self c0 rest
      · rw [if_neg hc]
        exact List.Sublist.cons₂ c0 ih

theorem mem_eraseFirstClass_of_ne (l : List TrackerCore.TClass) (code : String)
    (c : TrackerCore.TClass) (hmem : c ∈ l) (hne : c.code ≠ code) :
    c ∈ TrackerCore.eraseFirstClass l code := by
  induction l with
  | nil => cases hmem
  | cons c0 rest ih =>
      unfold TrackerCore.eraseFirstClass
      rcases List.mem_cons.mp hmem with he | hmem2
      · have : ¬c0.code = code := by rw [← he]; exact hne
        rw [if_neg this]
        rw [he]
        exact List.mem_cons_self _ _
      · by_cases hc : c0.code = code
        · rw [if_pos hc]; exact hmem2
        · rw [if_neg hc]
          exact List.mem_cons_of_mem c0 (ih hmem2)

theorem findClass_eraseFirstClass_none (l : List TrackerCore.TClass) (code : String)
    (hu : l.Pairwise (fun c1 c2 => c1.code ≠ c2.code)) :
    TrackerCore.findClass (TrackerCore.eraseFirstClass l code) code = none := by
  induction l with
  | nil => rfl
  | cons c0 rest ih =>
      rw [List.pairwise_cons] at hu
      unfold TrackerCore.eraseFirstClass
      by_cases hc : c0.code = code
      · rw [if_pos hc]
        rw [findClass_eq_none_iff]
        intro c hcm he
        exact hu.1 c hcm (hc.trans he.symm) 
      · rw [if_neg hc]
        unfold TrackerCore.findClass
        rw [if_neg hc]
        exact ih hu.2

theorem setFirstClass_map_code (l : List TrackerCore.TClass) (code : String)
    (c1 : TrackerCore.TClass) (h : c1.code = code) :
    (TrackerCore.setFirstClass l code c1).map (fun c => c.code) =
      l.map (fun c => c.code) := by
  induction l with
  | nil => rfl
  | cons c0 rest ih =>
      unfold TrackerCore.setFirstClass
      by_cases hc : c0.code = code
      · rw [if_pos hc]
        rw [List.map_cons, List.map_cons, h, hc]
      · rw [if_neg hc]
        rw [List.map_cons, List.map_cons, ih]

theorem exists_code_iff_mem_map (l : List TrackerCore.TClass) (x : String) :
    (∃ c ∈ l, c.code = x) ↔ x ∈ l.map (fun c => c.code) := by
  simp

theorem findAssign_eq_some (l : List TrackerCore.Assignment) (id : Nat)
    (a : TrackerCore.Assignment) (h : TrackerCore.findAssign l id = some a) :
    a ∈ l ∧ a.id = id := by
  induction l with
  | nil => cases h
  | cons a0 rest ih =>
      unfold TrackerCore.findAssign at h
      by_cases ha : a0.id = id
      · rw [if_pos ha] at h
        injection h with h
        rw [← h]
        exact ⟨List.mem_cons_self a0 rest, ha⟩
      · rw [if_neg ha] at h
        obtain ⟨h1, h2⟩ := ih h
        exact ⟨List.mem_cons_of_mem a0 h1, h2⟩

theorem findAssign_eq_none_iff (l : List TrackerCore.Assignment) (id : Nat) :
    TrackerCore.findAssign l id = none ↔ ∀ a ∈ l, a.id ≠ id := by
  induction l with
  | nil => simp [TrackerCore.findAssign]
  | cons a0 rest ih =>
      unfold TrackerCore.findAssign
      by_cases ha : a0.id = id
      · simp [ha]
      · simp only [if_neg ha, ih]
        constructor
        · intro hall a hamem
          rcases List.mem_cons.mp hamem with hamem | hamem
          · rw [hamem]; exact ha
          · exact hall a hamem
        · intro hall a hamem
          exact hall a (List.mem_cons_of_mem a0 hamem)

theorem eraseFirstAssign_sublist (l : List TrackerCore.Assignment) (id : Nat) :
    List.Sublist (TrackerCore.eraseFirstAssign l id) l := by
  induction l with
  | nil => exact List.Sublist.refl []
  | cons a0 rest ih =>
      unfold TrackerCore.eraseFirstAssign
      by_cases ha : a0.id = id
      · rw [if_pos ha]
        exact List.sublist_cons_self a0 rest
      · rw [if_neg ha]
        exact List.Sublist.cons₂ a0 ih

theorem mem_eraseFirstAssign_of_ne (l : List TrackerCore.Assignment) (id : Nat)
    (a : TrackerCore.Assignment) (hmem : a ∈ l) (hne : a.id ≠ id) :
    a ∈ TrackerCore.eraseFirstAssign l id := by
  induction l with
  | nil => cases hmem
  | cons a0 rest ih =>
      unfold TrackerCore.eraseFirstAssign
      rcases List.mem_cons.mp hmem with he | hmem2
      · have : ¬a0.id = id := by rw [← he]; exact hne
        rw [if_neg this]
        rw [he]
        exact List.mem_cons_self _ _
      · by_cases ha : a0.id = id
        · rw [if_pos ha]; exact hmem2
        · rw [if_neg ha]
          exact List.mem_cons_of_mem a0 (ih hmem2)

theorem add_total_value_cases (c : TrackerCore.TClass) (v : Rat) :
    c.add_total_value v =
      (Except.error (TrackerCore.InvalidTrackerError.ClassTotalValue (c.total_value + v)), c) ∨
    c.add_total_value v = (Except.ok (), { c with total_value := c.total_value + v }) := by
  unfold TrackerCore.TClass.add_total_value
  by_cases h : 100 < c.total_value + v
  · left; rw [if_pos h]
  · right; rw [if_neg h]

theorem add_total_value_ok_snd (c : TrackerCore.TClass) (v : Rat) (c1 : TrackerCore.TClass)
    (h : c.add_total_value v = (Except.ok (), c1)) :
    c1 = { c with total_value := c.total_value + v } := by
  rcases add_total_value_cases c v with he | he <;> rw [he, Prod.mk.injEq] at h
  · exact absurd h.1 (by simp)
  · exact h.2.symm

theorem add_class_cases (t : TrackerCore.Tracker) (c : TrackerCore.TClass) :
    ((∃ c0 ∈ t.classes, c0.code = c.code) ∧
      t.add_class c = (Except.error (TrackerCore.InvalidTrackerError.ClassCodeTaken t.name c.code), t)) ∨
    ((∀ c0 ∈ t.classes, c0.code ≠ c.code) ∧
      t.add_class c = (Except.ok (), { t with classes := t.classes ++ [c] })) := by
  unfold TrackerCore.Tracker.add_class
  by_cases hany : t.classes.any (fun c0 => c0.code = c.code) = true
  · left
    refine ⟨?_, by simp [hany]⟩
    simpa [List.any_eq_true] using hany
  · right
    have hfalse : t.classes.any (fun c0 => c0.code = c.code) = false :=
      Bool.eq_false_iff.mpr hany
    refine ⟨?_, by simp [hfalse]⟩
    intro c0 hc0 he
    exact hany (List.any_eq_true.mpr ⟨c0, hc0, by simpa using he⟩)

theorem remove_class_cases (t : TrackerCore.Tracker) (code : String) :
    (TrackerCore.findClass t.classes code = none ∧
      t.remove_class code =
        (Except.error (TrackerCore.InvalidTrackerError.ClassCodeTaken t.name code), t)) ∨
    (∃ c, TrackerCore.findClass t.classes code = some c ∧
      t.remove_class code = (Except.ok c,
        { t with
          map := TrackerCore.mapEraseKeys t.map (TrackerCore.idsWithCode t.map code)
          classes := TrackerCore.eraseFirstClass t.classes code })) := by
  unfold TrackerCore.Tracker.remove_class
  cases hf : TrackerCore.findClass t.classes code with
  | none => left; exact ⟨rfl, rfl⟩
  | some c => right; exact ⟨c, rfl, rfl⟩

theorem remove_assignment_cases (t : TrackerCore.Tracker) (id : Nat) :
    (TrackerCore.findAssign t.assignments id = none ∧
      t.remove_assignment id =
        (Except.error (TrackerCore.InvalidTrackerError.AssignmentIdNone t.name id), t)) ∨
    (∃ a, TrackerCore.findAssign t.assignments id = some a ∧
      t.remove_assignment id = (Except.ok a,
        { t with
          map := TrackerCore.mapEraseKey t.map id
          assignments := TrackerCore.eraseFirstAssign t.assignments id })) := by
  unfold TrackerCore.Tracker.remove_assignment
  cases hf : TrackerCore.findAssign t.assignments id with
  | none => left; exact ⟨rfl, rfl⟩
  | some a => right; exact ⟨a, rfl, rfl⟩

theorem add_assignment_cases (t : TrackerCore.Tracker) (code : String)
    (a : TrackerCore.Assignment) :
    ((t.add_assignment code a).1.isOk = false ∧ (t.add_assignment code a).2 = t) ∨
    ((∀ a0 ∈ t.assignments, a0.id ≠ a.id) ∧
      TrackerCore.nameTakenInClass t code a.name = false ∧
      (∃ c, TrackerCore.findClass t.classes code = some c ∧
        (∃ c1, c.add_total_value (a.value.getD 0) = (Except.ok (), c1) ∧ c1.code = c.code ∧
          t.add_assignment code a = (Except.ok (),
            { t with
              classes := TrackerCore.setFirstClass t.classes code c1
              map := TrackerCore.mapInsert t.map a.id code
              assignments := t.assignments ++ [a] })))) := by
  unfold TrackerCore.Tracker.add_assignment
  by_cases h1 : t.assignments.any (fun a0 => a0.id = a.id) = true
  · left; simp [h1, except_isOk_error]
  · have h1f : t.assignments.any (fun a0 => a0.id = a.id) = false :=
      Bool.eq_false_iff.mpr h1
    by_cases h2 : TrackerCore.nameTakenInClass t code a.name = true
    · left; simp [h1f, h2, except_isOk_error]
    · have h2f : TrackerCore.nameTakenInClass t code a.name = false :=
        Bool.eq_false_iff.mpr h2
      cases hf : TrackerCore.findClass t.classes code with
      | none => left; simp [h1f, h2f, except_isOk_error]
      | some c =>
          rcases add_total_value_cases c (a.value.getD 0) with hv | hv
          · left; simp [h1f, h2f, hv, except_isOk_error]
          · right
            refine ⟨?_, h2f, c, rfl, { c with total_value := c.total_value + a.value.getD 0 },
              hv, rfl, by simp [h1f, h2f, hv]⟩
            intro a0 ha0 he
            exact h1 (List.any_eq_true.mpr ⟨a0, ha0, by simpa using he⟩)

theorem nameTakenInClass_eq_false_iff (t : TrackerCore.Tracker) (code nm : String) :
    TrackerCore.nameTakenInClass t code nm = false ↔
      ∀ a0 ∈ t.assignments, a0.name = nm →
        TrackerCore.mapGet t.map a0.id ≠ some code := by
  unfold TrackerCore.nameTakenInClass
  rw [List.any_eq_false]
  constructor
  · intro hall a0 ha0 hnm hget
    have hmem : a0 ∈ t.assignments.filter (fun a1 => a1.name = nm) :=
      List.mem_filter.mpr ⟨ha0, by simpa using hnm⟩
    have hcon := hall a0 hmem
    rw [hget] at hcon
    simp at hcon
  · intro hall a0 ha0
    have hmem := List.mem_filter.mp ha0
    intro hmatch
    cases hget : TrackerCore.mapGet t.map a0.id with
    | none => rw [hget] at hmatch; cases hmatch
    | some s =>
        rw [hget] at hmatch
        simp only [decide_eq_true_eq] at hmatch
        exact hall a0 hmem.1 (by simpa using hmem.2) (by rw [hget, hmatch])

theorem nameTakenInClass_eq_true_of (t : TrackerCore.Tracker) (code nm : String)
    (a0 : TrackerCore.Assignment) (ha0 : a0 ∈ t.assignments) (hnm : a0.name = nm)
    (hget : TrackerCore.mapGet t.map a0.id = some code) :
    TrackerCore.nameTakenInClass t code nm = true := by
  unfold TrackerCore.nameTakenInClass
  rw [List.any_eq_true]
  refine ⟨a0, List.mem_filter.mpr ⟨ha0, by simpa using hnm⟩, ?_⟩
  rw [hget]
  simp

theorem mem_idsWithCode (m : List (Nat × String)) (code : String) (p : Nat × String)
    (hp : p ∈ m) (hc : p.2 = code) : p.1 ∈ TrackerCore.idsWithCode m code := by
  unfold TrackerCore.idsWithCode
  apply List.mem_map.mpr
  refine ⟨p, ?_, rfl⟩
  exact List.mem_filter.mpr ⟨hp, by simp [hc]⟩

theorem wf_new (n : String) : (TrackerCore.Tracker.new n).WF := by
  refine ⟨List.Pairwise.nil, List.Pairwise.nil, List.Pairwise.nil, ?_, ?_⟩
  · intro p hp; cases hp
  · intro a1 h1; cases h1

theorem wf_add_class (t : TrackerCore.Tracker) (c : TrackerCore.TClass)
    (h : t.WF) : ((t.add_class c).2).WF := by
  obtain ⟨hcu, hiu, hku, hmc, hnu⟩ := h
  rcases add_class_cases t c with ⟨hex, heq⟩ | ⟨hall, heq⟩
  · rw [heq]
    exact ⟨hcu, hiu, hku, hmc, hnu⟩
  · rw [heq]
    refine ⟨?_, hiu, hku, ?_, hnu⟩
    · show (t.classes ++ [c]).Pairwise (fun c1 c2 => c1.code ≠ c2.code)
      rw [List.pairwise_append]
      refine ⟨hcu, List.pairwise_singleton _ c, ?_⟩
      intro x hx y hy
      rw [List.mem_singleton] at hy
      rw [hy]
      exact hall x hx
    · intro p hp
      obtain ⟨ha, hc2⟩ := hmc p hp
      refine ⟨ha, ?_⟩
      obtain ⟨c0, hc0, he⟩ := hc2
      exact ⟨c0, List.mem_append_left [c] hc0, he⟩

theorem wf_remove_class (t : TrackerCore.Tracker) (code : String)
    (h : t.WF) : ((t.remove_class code).2).WF := by
  obtain ⟨hcu, hiu, hku, hmc, hnu⟩ := h
  rcases remove_class_cases t code with ⟨hnone, heq⟩ | ⟨c, hsome, heq⟩
  · rw [heq]
    exact ⟨hcu, hiu, hku, hmc, hnu⟩
  · rw [heq]
    refine ⟨?_, hiu, ?_, ?_, ?_⟩
    · exact List.Pairwise.sublist (eraseFirstClass_sublist t.classes code) hcu
    · exact keysUnique_sublist t.map _
        (mapEraseKeys_sublist t.map (TrackerCore.idsWithCode t.map code)) hku
    · intro p hp
      rw [mem_mapEraseKeys] at hp
      obtain ⟨hpm, hpid⟩ := hp
      obtain ⟨ha, ⟨c0, hc0, he⟩⟩ := hmc p hpm
      refine ⟨ha, c0, ?_, he⟩
      apply mem_eraseFirstClass_of_ne t.classes code c0 hc0
      intro hcode
      apply hpid
      exact mem_idsWithCode t.map code p hpm (by rw [← he, hcode])
    · intro a1 h1 a2 h2 hid code2 hg1 hg2
      rw [mapGet_mapEraseKeys] at hg1 hg2
      by_cases hin1 : a1.id ∈ TrackerCore.idsWithCode t.map code
      · rw [if_pos hin1] at hg1; cases hg1
      · rw [if_neg hin1] at hg1
        by_cases hin2 : a2.id ∈ TrackerCore.idsWithCode t.map code
        · rw [if_pos hin2] at hg2; cases hg2
        · rw [if_neg hin2] at hg2
          exact hnu a1 h1 a2 h2 hid code2 hg1 hg2

theorem wf_remove_assignment (t : TrackerCore.Tracker) (id : Nat)
    (h : t.WF) : ((t.remove_assignment id).2).WF := by
  obtain ⟨hcu, hiu, hku, hmc, hnu⟩ := h
  rcases remove_assignment_cases t id with ⟨hnone, heq⟩ | ⟨a, hsome, heq⟩
  · rw [heq]
    exact ⟨hcu, hiu, hku, hmc, hnu⟩
  · rw [heq]
    refine ⟨hcu, ?_, ?_, ?_, ?_⟩
    · exact List.Pairwise.sublist (eraseFirstAssign_sublist t.assignments id) hiu
    · exact keysUnique_sublist t.map _ (mapEraseKey_sublist t.map id) hku
    · intro p hp
      rw [mem_mapEraseKey] at hp
      obtain ⟨hpm, hpid⟩ := hp
      obtain ⟨⟨a0, ha0, haid⟩, hc2⟩ := hmc p hpm
      refine ⟨⟨a0, ?_, haid⟩, hc2⟩
      apply mem_eraseFirstAssign_of_ne t.assignments id a0 ha0
      rw [haid]
      exact hpid
    · intro a1 h1 a2 h2 hid code2 hg1 hg2
      rw [mapGet_mapEraseKey] at hg1 hg2
      by_cases hi1 : a1.id = id
      · rw [if_pos hi1] at hg1; cases hg1
      · rw [if_neg hi1] at hg1
        by_cases hi2 : a2.id = id
        · rw [if_pos hi2] at hg2; cases hg2
        · rw [if_neg hi2] at hg2
          exact hnu a1 (List.Sublist.mem h1 (eraseFirstAssign_sublist t.assignments id))
            a2 (List.Sublist.mem h2 (eraseFirstAssign_sublist t.assignments id))
            hid code2 hg1 hg2

theorem wf_add_assignment (t : TrackerCore.Tracker) (code : String)
    (a : TrackerCore.Assignment) (h : t.WF) : ((t.add_assignment code a).2).WF := by
  obtain ⟨hcu, hiu, hku, hmc, hnu⟩ := h
  rcases add_assignment_cases t code a with ⟨_, heq⟩ | ⟨hall, hntf, c, hf, c1, hv, hc1code, heq⟩
  · rw [heq]
    exact ⟨hcu, hiu, hku, hmc, hnu⟩
  · obtain ⟨hcmem, hccode⟩ := findClass_eq_some t.classes code c hf
    have hc1 : c1.code = code := hc1code.trans hccode
    rw [heq]
    refine ⟨?_, ?_, ?_, ?_, ?_⟩
    · show (TrackerCore.setFirstClass t.classes code c1).Pairwise
        (fun c1 c2 => c1.code ≠ c2.code)
      have hmapped : ((TrackerCore.setFirstClass t.classes code c1).map
          (fun c => c.code)).Pairwise (fun i j => i ≠ j) := by
        rw [setFirstClass_map_code t.classes code c1 hc1, List.pairwise_map]
        exact hcu
      exact List.pairwise_map.mp hmapped
    · show (t.assignments ++ [a]).Pairwise (fun a1 a2 => a1.id ≠ a2.id)
      rw [List.pairwise_append]
      refine ⟨hiu, List.pairwise_singleton _ a, ?_⟩
      intro x hx y hy
      rw [List.mem_singleton] at hy
      rw [hy]
      exact hall x hx
    · exact keysUnique_mapInsert t.map a.id code hku
    · intro p hp
      rw [mem_mapInsert] at hp
      rcases hp with hp | ⟨hpm, hpne⟩
      · rw [hp]
        refine ⟨⟨a, List.mem_append_right t.assignments (List.mem_singleton.mpr rfl), rfl⟩, ?_⟩
        rw [exists_code_iff_mem_map, setFirstClass_map_code t.classes code c1 hc1,
          ← exists_code_iff_mem_map]
        exact ⟨c, hcmem, hccode⟩
      · obtain ⟨⟨a0, ha0, haid⟩, hc2⟩ := hmc p hpm
        refine ⟨⟨a0, List.mem_append_left [a] ha0, haid⟩, ?_⟩
        rw [exists_code_iff_mem_map, setFirstClass_map_code t.classes code c1 hc1,
          ← exists_code_iff_mem_map]
        exact hc2
    · intro a1 h1 a2 h2 hid code2 hg1 hg2
      have hnt := (nameTakenInClass_eq_false_iff t code a.name).mp hntf
      rcases List.mem_append.mp h1 with h1m | h1s
      · rcases List.mem_append.mp h2 with h2m | h2s
        · rw [mapGet_mapInsert_ne t.map a.id code a1.id (hall a1 h1m)] at hg1
          rw [mapGet_mapInsert_ne t.map a.id code a2.id (hall a2 h2m)] at hg2
          exact hnu a1 h1m a2 h2m hid code2 hg1 hg2
        · rw [List.mem_singleton] at h2s
          rw [h2s]
          rw [h2s] at hg2
          rw [mapGet_mapInsert_self] at hg2
          injection hg2 with hg2
          rw [mapGet_mapInsert_ne t.map a.id code a1.id (hall a1 h1m)] at hg1
          intro hne
          exact hnt a1 h1m hne (by rw [hg1, hg2])
      · rcases List.mem_append.mp h2 with h2m | h2s
        · rw [List.mem_singleton] at h1s
          rw [h1s]
          rw [h1s] at hg1
          rw [mapGet_mapInsert_self] at hg1
          injection hg1 with hg1
          rw [mapGet_mapInsert_ne t.map a.id code a2.id (hall a2 h2m)] at hg2
          intro hne
          exact hnt a2 h2m hne.symm (by rw [hg2, hg1])
        · rw [List.mem_singleton] at h1s h2s
          rw [h1s, h2s] at hid
          exact absurd rfl hid

theorem wf_tstep (t t1 : TrackerCore.Tracker) (hstep : TrackerCore.TStep t t1)
    (h : t.WF) : t1.WF := by
  cases hstep with
  | add_class c => exact wf_add_class t c h
  | remove_class code => exact wf_remove_class t code h
  | add_assignment code a => exact wf_add_assignment t code a h
  | remove_assignment id => exact wf_remove_assignment t id h

theorem treach_wf (n : String) (t : TrackerCore.Tracker)
    (h : TrackerCore.TReach (TrackerCore.Tracker.new n) t) : t.WF := by
  induction h with
  | refl => exact wf_new n
  | step hr hstep ih => exact wf_tstep _ _ hstep ih

/-- C1: every tracker state reachable from Tracker::new satisfies the
three uniqueness invariants (class codes, global assignment ids,
assignment names within one class), and any add_class or add_assignment
call that fails, in particular one that would violate a uniqueness rule,
returns an error and leaves the tracker exactly unchanged. -/
theorem C1_tracker_uniqueness_atomic (n : String) (t : TrackerCore.Tracker)
    (h : TrackerCore.TReach (TrackerCore.Tracker.new n) t) :
    t.codesUnique ∧ t.idsUnique ∧ t.namesUniquePerClass ∧
    (∀ c : TrackerCore.TClass,
      ((t.add_class c).1.isOk = false → (t.add_class c).2 = t) ∧
      ((∃ c0 ∈ t.classes, c0.code = c.code) → (t.add_class c).1.isOk = false)) ∧
    (∀ (code : String) (a : TrackerCore.Assignment),
      ((t.add_assignment code a).1.isOk = false → (t.add_assignment code a).2 = t) ∧
      ((∃ a0 ∈ t.assignments, a0.id = a.id) → (t.add_assignment code a).1.isOk = false) ∧
      ((∃ a0 ∈ t.assignments, a0.name = a.name ∧
          TrackerCore.mapGet t.map a0.id = some code) →
        (t.add_assignment code a).1.isOk = false)) := by
  obtain ⟨hcu, hiu, hku, hmc, hnu⟩ := treach_wf n t h
  refine ⟨hcu, hiu, hnu, ?_, ?_⟩
  · intro c
    rcases add_class_cases t c with ⟨hex, heq⟩ | ⟨hall, heq⟩
    · constructor
      · intro _
        rw [heq]
      · intro _
        rw [heq]
        exact except_isOk_error _
    · constructor
      · intro hk
        rw [heq] at hk
        cases hk
      · rintro ⟨c0, hc0, he⟩
        exact absurd he (hall c0 hc0)
  · intro code a
    rcases add_assignment_cases t code a with ⟨hk, hunch⟩ |
      ⟨hall, hntf, c, hf, c1, hv, hc1code, heq⟩
    · exact ⟨fun _ => hunch, fun _ => hk, fun _ => hk⟩
    · refine ⟨?_, ?_, ?_⟩
      · intro hk
        rw [heq] at hk
        cases hk
      · rintro ⟨a0, ha0, he⟩
        exact absurd he (hall a0 ha0)
      · rintro ⟨a0, ha0, hnm, hget⟩
        rw [nameTakenInClass_eq_true_of t code a.name a0 ha0 hnm hget] at hntf
        cases hntf

/-- C1 witness: the invariants and failure atomicity evaluated on the
tracker reached by adding one class and one assignment. -/
theorem C1_tracker_uniqueness_atomic_witness :
    (let t := ((((TrackerCore.Tracker.new "T").add_class
        { code := "C1", total_value := 0 }).2).add_assignment "C1"
        (TrackerCore.Assignment.new 5 "Exam")).2
     t.codesUnique ∧ t.idsUnique ∧ t.namesUniquePerClass ∧
     (∀ c : TrackerCore.TClass,
       ((t.add_class c).1.isOk = false → (t.add_class c).2 = t) ∧
       ((∃ c0 ∈ t.classes, c0.code = c.code) → (t.add_class c).1.isOk = false)) ∧
     (∀ (code : String) (a : TrackerCore.Assignment),
       ((t.add_assignment code a).1.isOk = false → (t.add_assignment code a).2 = t) ∧
       ((∃ a0 ∈ t.assignments, a0.id = a.id) → (t.add_assignment code a).1.isOk = false) ∧
       ((∃ a0 ∈ t.assignments, a0.name = a.name ∧
           TrackerCore.mapGet t.map a0.id = some code) →
         (t.add_assignment code a).1.isOk = false))) :=
  C1_tracker_uniqueness_atomic "T" _
    (TrackerCore.TReach.step
      (TrackerCore.TReach.step TrackerCore.TReach.refl
        (TrackerCore.TStep.add_class (TrackerCore.Tracker.new "T")
          { code := "C1", total_value := 0 }))
      (TrackerCore.TStep.add_assignment _ "C1" (TrackerCore.Assignment.new 5 "Exam")))

/-- C3: Tracker::add_assignment reports the global id conflict first
(even when the name, class-existence or weight conditions also fail),
then the per-class name conflict, then the missing class. -/
theorem C3_add_assignment_error_order (t : TrackerCore.Tracker) (code : String)
    (a : TrackerCore.Assignment) :
    ((∃ a0 ∈ t.assignments, a0.id = a.id) →
      (t.add_assignment code a).1 =
        Except.error (TrackerCore.InvalidTrackerError.AssignmentIdTaken t.name a.id)) ∧
    ((∀ a0 ∈ t.assignments, a0.id ≠ a.id) →
      (∃ a0 ∈ t.assignments, a0.name = a.name ∧
        TrackerCore.mapGet t.map a0.id = some code) →
      (t.add_assignment code a).1 =
        Except.error
          (TrackerCore.InvalidTrackerError.AssignmentNameNotUnique t.name a.name code)) ∧
    ((∀ a0 ∈ t.assignments, a0.id ≠ a.id) →
      (∀ a0 ∈ t.assignments, a0.name = a.name →
        TrackerCore.mapGet t.map a0.id ≠ some code) →
      (∀ c ∈ t.classes, c.code ≠ code) →
      (t.add_assignment code a).1 =
        Except.error (TrackerCore.InvalidTrackerError.ClassCodeNone t.name code)) := by
  refine ⟨?_, ?_, ?_⟩
  · rintro ⟨a0, ha0, he⟩
    have hany : t.assignments.any (fun a1 => a1.id = a.id) = true :=
      List.any_eq_true.mpr ⟨a0, ha0, by simpa using he⟩
    unfold TrackerCore.Tracker.add_assignment
    simp [hany]
  · intro hall hex
    have hanyf : t.assignments.any (fun a1 => a1.id = a.id) = false := by
      rw [List.any_eq_false]
      intro a0 ha0
      simpa using hall a0 ha0
    obtain ⟨a0, ha0, hnm, hget⟩ := hex
    have hnt := nameTakenInClass_eq_true_of t code a.name a0 ha0 hnm hget
    unfold TrackerCore.Tracker.add_assignment
    simp [hanyf, hnt]
  · intro hall hnone hcls
    have hanyf : t.assignments.any (fun a1 => a1.id = a.id) = false := by
      rw [List.any_eq_false]
      intro a0 ha0
      simpa using hall a0 ha0
    have hntf : TrackerCore.nameTakenInClass t code a.name = false :=
      (nameTakenInClass_eq_false_iff t code a.name).mpr hnone
    have hfnone : TrackerCore.findClass t.classes code = none :=
      (findClass_eq_none_iff t.classes code).mpr hcls
    unfold TrackerCore.Tracker.add_assignment
    simp [hanyf, hntf, hfnone]

/-- C3 witness: the three error cases evaluated on a concrete tracker
with class C1 holding assignment id 5 named Exam. -/
theorem C3_add_assignment_error_order_witness :
    (({ name := "T", classes := [{ code := "C1", total_value := 0 }],
        assignments := [TrackerCore.Assignment.new 5 "Exam"],
        map := [(5, "C1")] } : TrackerCore.Tracker).add_assignment "C1"
        (TrackerCore.Assignment.new 5 "Quiz")).1 =
      Except.error (TrackerCore.InvalidTrackerError.AssignmentIdTaken "T" 5) ∧
    (({ name := "T", classes := [{ code := "C1", total_value := 0 }],
        assignments := [TrackerCore.Assignment.new 5 "Exam"],
        map := [(5, "C1")] } : TrackerCore.Tracker).add_assignment "C1"
        (TrackerCore.Assignment.new 6 "Exam")).1 =
      Except.error (TrackerCore.InvalidTrackerError.AssignmentNameNotUnique "T" "Exam" "C1") ∧
    (({ name := "T", classes := [{ code := "C1", total_value := 0 }],
        assignments := [TrackerCore.Assignment.new 5 "Exam"],
        map := [(5, "C1")] } : TrackerCore.Tracker).add_assignment "C2"
        (TrackerCore.Assignment.new 6 "Quiz")).1 =
      Except.error (TrackerCore.InvalidTrackerError.ClassCodeNone "T" "C2") :=
  ⟨(C3_add_assignment_error_order _ "C1" (TrackerCore.Assignment.new 5 "Quiz")).1
      ⟨TrackerCore.Assignment.new 5 "Exam", by simp, rfl⟩,
   (C3_add_assignment_error_order _ "C1" (TrackerCore.Assignment.new 6 "Exam")).2.1
      (by decide) ⟨TrackerCore.Assignment.new 5 "Exam", by simp, rfl, rfl⟩,
   (C3_add_assignment_error_order _ "C2" (TrackerCore.Assignment.new 6 "Quiz")).2.2
      (by decide) (by decide) (by decide)⟩

/-- C10: in every tracker state reachable from Tracker::new, each entry
of the id-to-code index refers to an assignment currently stored in the
flat assignment list and to a class currently stored in the class
list. -/
theorem C10_index_consistency (n : String) (t : TrackerCore.Tracker)
    (h : TrackerCore.TReach (TrackerCore.Tracker.new n) t) : t.mapConsistent :=
  (treach_wf n t h).2.2.2.1

/-- C10 witness: index consistency on the tracker reached by adding one
class and one assignment. -/
theorem C10_index_consistency_witness :
    ((((TrackerCore.Tracker.new "T").add_class
        { code := "C1", total_value := 0 }).2.add_assignment "C1"
        (TrackerCore.Assignment.new 5 "Exam")).2).mapConsistent :=
  C10_index_consistency "T" _
    (TrackerCore.TReach.step
      (TrackerCore.TReach.step TrackerCore.TReach.refl
        (TrackerCore.TStep.add_class (TrackerCore.Tracker.new "T")
          { code := "C1", total_value := 0 }))
      (TrackerCore.TStep.add_assignment _ "C1" (TrackerCore.Assignment.new 5 "Exam")))

theorem idsWithCode_mem (m : List (Nat × String)) (code : String) (i : Nat)
    (h : i ∈ TrackerCore.idsWithCode m code) : ∃ p ∈ m, p.1 = i ∧ p.2 = code := by
  unfold TrackerCore.idsWithCode at h
  rw [List.mem_map] at h
  obtain ⟨p, hp, he⟩ := h
  rw [List.mem_filter] at hp
  exact ⟨p, hp.1, he, by simpa using hp.2⟩

/-- C4 amended: when no class has the code, remove_class fails with the
ClassCodeTaken error (the source reuses the conflict variant instead of
a distinct not-found kind) and leaves the tracker unchanged; on success
it removes the first class with that code and every index entry of that
class and returns the removed class, but the assignments of the class
stay in the flat assignment list, so get_assignment on their ids still
returns them rather than None. -/
theorem C4_remove_class_behavior (n : String) (t : TrackerCore.Tracker) (code : String)
    (h : TrackerCore.TReach (TrackerCore.Tracker.new n) t) :
    (t.get_class code = none →
      t.remove_class code =
        (Except.error (TrackerCore.InvalidTrackerError.ClassCodeTaken t.name code), t)) ∧
    (∀ c, t.get_class code = some c →
      (t.remove_class code).1 = Except.ok c ∧
      (t.remove_class code).2.get_class code = none ∧
      (t.remove_class code).2.assignments = t.assignments ∧
      (∀ id, (t.remove_class code).2.get_assignment id = t.get_assignment id) ∧
      (∀ id, TrackerCore.mapGet t.map id = some code →
        TrackerCore.mapGet (t.remove_class code).2.map id = none) ∧
      (∀ id s, s ≠ code →
        (TrackerCore.mapGet (t.remove_class code).2.map id = some s ↔
          TrackerCore.mapGet t.map id = some s))) := by
  obtain ⟨hcu, hiu, hku, hmc, hnu⟩ := treach_wf n t h
  constructor
  · intro hnone
    rcases remove_class_cases t code with ⟨hn, heq⟩ | ⟨c, hs, heq⟩
    · exact heq
    · rw [TrackerCore.Tracker.get_class] at hnone
      rw [hnone] at hs
      cases hs
  · intro c hsome
    rw [TrackerCore.Tracker.get_class] at hsome
    rcases remove_class_cases t code with ⟨hn, heq⟩ | ⟨c0, hs, heq⟩
    · rw [hn] at hsome; cases hsome
    · rw [hs] at hsome
      injection hsome with hsome
      rw [hsome] at heq
      rw [heq]
      refine ⟨rfl, ?_, rfl, fun id => rfl, ?_, ?_⟩
      · show TrackerCore.findClass (TrackerCore.eraseFirstClass t.classes code) code = none
        exact findClass_eraseFirstClass_none t.classes code hcu
      · intro id hget
        show TrackerCore.mapGet
          (TrackerCore.mapEraseKeys t.map (TrackerCore.idsWithCode t.map code)) id = none
        rw [mapGet_mapEraseKeys]
        rw [if_pos (mem_idsWithCode t.map code (id, code) (mapGet_eq_some_mem t.map id code hget) rfl)]
      · intro id s hne
        show TrackerCore.mapGet
            (TrackerCore.mapEraseKeys t.map (TrackerCore.idsWithCode t.map code)) id =
            some s ↔ TrackerCore.mapGet t.map id = some s
        rw [mapGet_mapEraseKeys]
        by_cases hin : id ∈ TrackerCore.idsWithCode t.map code
        · rw [if_pos hin]
          constructor
          · intro hc; cases hc
          · intro hget
            obtain ⟨p, hpm, hp1, hp2⟩ := idsWithCode_mem t.map code id hin
            have : TrackerCore.mapGet t.map id = some code := by
              have hpp : (id, code) ∈ t.map := by
                have : p = (id, code) := Prod.ext_iff.mpr ⟨hp1, hp2⟩
                rw [← this]
                exact hpm
              exact mapGet_mem_of_keysUnique t.map id code hku hpp
            rw [hget] at this
            injection this with this
            exact absurd this hne
        · rw [if_neg hin]

/-- C4 counterexample: remove_class on a missing code fails with the
code-taken error variant, not a not-found kind; and after a successful
remove_class the assignments that belonged to the removed class are
still returned by get_assignment (the claim says None). -/
theorem C4_remove_class_counterexample :
    (((TrackerCore.Tracker.new "T").remove_class "C1").1 =
      Except.error (TrackerCore.InvalidTrackerError.ClassCodeTaken "T" "C1")) ∧
    ((TrackerCore.Tracker.new "T").add_class { code := "C1", total_value := 0 } =
      (Except.ok (),
        { name := "T"
          classes := [{ code := "C1", total_value := 0 }]
          assignments := []
          map := [] })) ∧
    (({ name := "T"
        classes := [{ code := "C1", total_value := 0 }]
        assignments := []
        map := [] } : TrackerCore.Tracker).add_assignment "C1"
        (TrackerCore.Assignment.new 5 "Exam") =
      (Except.ok (),
        { name := "T"
          classes := [{ code := "C1", total_value := 0 }]
          assignments := [TrackerCore.Assignment.new 5 "Exam"]
          map := [(5, "C1")] })) ∧
    ((({ name := "T"
         classes := [{ code := "C1", total_value := 0 }]
         assignments := [TrackerCore.Assignment.new 5 "Exam"]
         map := [(5, "C1")] } : TrackerCore.Tracker).remove_class "C1").1 =
      Except.ok { code := "C1", total_value := 0 }) ∧
    ((({ name := "T"
         classes := [{ code := "C1", total_value := 0 }]
         assignments := [TrackerCore.Assignment.new 5 "Exam"]
         map := [(5, "C1")] } : TrackerCore.Tracker).remove_class "C1").2.get_assignment 5 =
      some (TrackerCore.Assignment.new 5 "Exam")) := by
  refine ⟨rfl, rfl, ?_, rfl, rfl⟩
  norm_num [TrackerCore.Tracker.add_assignment, TrackerCore.nameTakenInClass,
    TrackerCore.findClass, TrackerCore.TClass.add_total_value, TrackerCore.setFirstClass,
    TrackerCore.mapInsert, TrackerCore.mapEraseKey, TrackerCore.Assignment.new,
    Option.getD]

/-- C4 witness: the amended behaviour evaluated on the tracker holding
one class C1: removing C1 succeeds, returns it, and leaves no class
with that code. -/
theorem C4_remove_class_behavior_witness :
    (let t := ((TrackerCore.Tracker.new "T").add_class { code := "C1", total_value := 0 }).2
     (t.remove_class "C1").1 = Except.ok { code := "C1", total_value := 0 } ∧
     (t.remove_class "C1").2.get_class "C1" = none) := by
  have h := (C4_remove_class_behavior "T"
      ((TrackerCore.Tracker.new "T").add_class { code := "C1", total_value := 0 }).2 "C1"
      (TrackerCore.TReach.step TrackerCore.TReach.refl
        (TrackerCore.TStep.add_class (TrackerCore.Tracker.new "T")
          { code := "C1", total_value := 0 }))).2
      { code := "C1", total_value := 0 } rfl
  exact ⟨h.1, h.2.1⟩
